import Mathlib

/-
Verification of the line-transformation core of the sort-lines extension
(src/sort-lines.ts). JavaScript strings are modelled as finite sequences of
UTF-16 code units (natural numbers), which is the unit in which the source
indexes, slices and compares strings. Each definition below embeds the
correspondingly named function of src/sort-lines.ts; auxiliary JavaScript
built-ins (String.prototype.indexOf, substring, the relational operator on
strings, Array.prototype.sort, join, split, and the ECMA-402 collator used
with sensitivity base) are modelled by their documented semantics.
-/

/-- A JavaScript string: a finite sequence of UTF-16 code units. -/
abbrev JSStr := List Nat

/-- The code unit of the equals sign. -/
def eqU : Nat := 61

/-- The code unit of the less-than sign. -/
def ltU : Nat := 60

/-- The code unit of the newline character. -/
def nlU : Nat := 10

/-- JavaScript string comparison a < b: lexicographic on UTF-16 code units. -/
def jsLt : JSStr → JSStr → Bool
  | [], [] => false
  | [], _ :: _ => true
  | _ :: _, [] => false
  | a :: as, b :: bs => if a < b then true else if b < a then false else jsLt as bs

/-- Index of the first occurrence of a code unit, as String.prototype.indexOf
computes it (none models the -1 result). -/
def jsIndexOf? : JSStr → Nat → Option Nat
  | [], _ => none
  | v :: rest, u =>
    if v = u then some 0
    else
      match jsIndexOf? rest u with
      | some i => some (i + 1)
      | none => none

/-- Index of the last occurrence of a code unit. -/
def lastIdxOf? : JSStr → Nat → Option Nat
  | [], _ => none
  | v :: rest, u =>
    match lastIdxOf? rest u with
    | some i => some (i + 1)
    | none => if v = u then some 0 else none

/-- String.prototype.substring for start ≤ stop: the code units in
positions start (inclusive) to stop (exclusive), clamped to the length. -/
def jsSubstring (s : JSStr) (start stop : Nat) : JSStr :=
  (s.take stop).drop start

/-- Whether a code unit is a high surrogate. -/
def isHighS (u : Nat) : Bool := 55296 ≤ u && u ≤ 56319

/-- Whether a code unit is a low surrogate. -/
def isLowS (u : Nat) : Bool := 56320 ≤ u && u ≤ 57343

/-- Number of Unicode code points in a UTF-16 code-unit sequence, as
Array.from(s).length computes it: a high surrogate followed by a low
surrogate counts as one code point. -/
def codePointLength : JSStr → Nat
  | [] => 0
  | [_] => 1
  | u :: v :: rest2 =>
    if isHighS u && isLowS v then 1 + codePointLength rest2
    else 1 + codePointLength (v :: rest2)

/-- Longest initial segment holding at most n Unicode code points (a valid
surrogate pair contributes both its units but only one code point). Used to
state the specification reading of the window extractors, which measures
windows in code points. -/
def takeCodePoints : Nat → JSStr → JSStr
  | 0, _ => []
  | _ + 1, [] => []
  | n + 1, u :: rest =>
    if isHighS u then
      match rest with
      | v :: rest2 =>
        if isLowS v then u :: v :: takeCodePoints n rest2
        else u :: takeCodePoints n (v :: rest2)
      | [] => [u]
    else u :: takeCodePoints n rest

/-- Model of the base-letter folding performed by the ECMA-402 collator that
String.prototype.localeCompare uses when called with sensitivity base
(per MDN: only strings that differ in base letters compare as unequal, so
a = A and a = a-acute). ASCII capitals are lowercased and the precomposed
Latin-1 letters are mapped to their base letter. -/
def baseFoldUnit (u : Nat) : Nat :=
  if 65 ≤ u ∧ u ≤ 90 then u + 32
  else if (192 ≤ u ∧ u ≤ 197) ∨ (224 ≤ u ∧ u ≤ 229) then 97
  else if u = 199 ∨ u = 231 then 99
  else if (200 ≤ u ∧ u ≤ 203) ∨ (232 ≤ u ∧ u ≤ 235) then 101
  else if (204 ≤ u ∧ u ≤ 207) ∨ (236 ≤ u ∧ u ≤ 239) then 105
  else if u = 209 ∨ u = 241 then 110
  else if (210 ≤ u ∧ u ≤ 214) ∨ (242 ≤ u ∧ u ≤ 246) then 111
  else if (217 ≤ u ∧ u ≤ 220) ∨ (249 ≤ u ∧ u ≤ 252) then 117
  else if u = 221 ∨ u = 253 ∨ u = 255 then 121
  else u

/-- Base-sensitivity key of a string: combining diacritical marks
(U+0300 to U+036F) are ignorable at base strength, every other unit is
folded to its base letter. -/
def baseFold (s : JSStr) : JSStr :=
  (s.filter (fun u => !(768 ≤ u && u ≤ 879))).map baseFoldUnit

/-- Insertion of one element into a list already arranged by the comparator,
placing it before the first element that compares greater. -/
def insertCmp (cmp : JSStr → JSStr → Int) (x : JSStr) : List JSStr → List JSStr
  | [] => [x]
  | y :: ys => if cmp x y < 0 then x :: y :: ys else y :: insertCmp cmp x ys

/-- Arrangement of a list consistent with the comparator (insertion sort).
For the consistent total-order comparators used in src/sort-lines.ts this is
the result of Array.prototype.sort with that comparator. -/
def sortWith (cmp : JSStr → JSStr → Int) (l : List JSStr) : List JSStr :=
  l.foldr (insertCmp cmp) []

/-- Comparison Array.prototype.sort applies when called with no comparator:
elements are compared as strings, code-unit-wise. -/
def defaultCompare (a b : JSStr) : Int :=
  if a = b then 0 else if jsLt a b then -1 else 1

/-- Embeds makeSorter of src/sort-lines.ts: the transformer that sorts the
lines with the given comparison (defaultCompare models the absent argument). -/
def makeSorter (cmp : JSStr → JSStr → Int) : List JSStr → List JSStr :=
  sortWith cmp

/-- Embeds removeDuplicates of src/sort-lines.ts: Array.from(new Set(lines))
keeps the first occurrence of each line, in encounter order. -/
def removeDuplicates (lines : List JSStr) : List JSStr :=
  lines.foldl (fun acc l => if l ∈ acc then acc else acc ++ [l]) []

/-- Whitespace per String.prototype.trim (the code units occurring in the
repository's data: tab, line feed, vertical tab, form feed, carriage return,
space, no-break space). -/
def isWS (u : Nat) : Bool :=
  u = 9 || u = 10 || u = 11 || u = 12 || u = 13 || u = 32 || u = 160

/-- Whether lines[i].trim() is the empty string: every unit is whitespace. -/
def jsTrimIsEmpty (s : JSStr) : Bool :=
  s.all isWS

/-- Embeds removeBlanks of src/sort-lines.ts: the in-place splice loop with
the index stepped back after each removal deletes exactly the lines whose
trimmed content is empty. -/
def removeBlanks (lines : List JSStr) : List JSStr :=
  lines.filter (fun l => !(jsTrimIsEmpty l))

/-- Embeds reverseCompare of src/sort-lines.ts. -/
def reverseCompare (a b : JSStr) : Int :=
  if a = b then 0 else if jsLt a b then 1 else -1

/-- Embeds caseInsensitiveCompare of src/sort-lines.ts:
a.localeCompare(b, undefined, sensitivity base), modelled as lexicographic
comparison of the base-folded strings. -/
def caseInsensitiveCompare (a b : JSStr) : Int :=
  if baseFold a = baseFold b then 0
  else if jsLt (baseFold a) (baseFold b) then -1 else 1

/-- Embeds lineLengthCompare of src/sort-lines.ts: Array.from(x).length is
the number of Unicode code points. -/
def lineLengthCompare (a b : JSStr) : Int :=
  if codePointLength a = codePointLength b then 0
  else if codePointLength a > codePointLength b then 1 else -1

/-- Embeds lineLengthReverseCompare of src/sort-lines.ts. -/
def lineLengthReverseCompare (a b : JSStr) : Int :=
  lineLengthCompare a b * -1

/-- Embeds getVariableCharacters of src/sort-lines.ts. The regex (.*)= is
anchored nowhere and the dot-star is greedy, so when the line holds an
equals sign the capture is everything strictly before the last equals sign;
match.pop() yields that capture, and the falsiness test on it sends both a
missing match and an empty capture back to the whole line. -/
def getVariableCharacters (line : JSStr) : JSStr :=
  match lastIdxOf? line eqU with
  | none => line
  | some i =>
    let last := line.take i
    if last = [] then line else last

/-- Embeds variableLengthCompare of src/sort-lines.ts. -/
def variableLengthCompare (a b : JSStr) : Int :=
  lineLengthCompare (getVariableCharacters a) (getVariableCharacters b)

/-- Exchange of the elements at two positions: the destructuring assignment
of src/sort-lines.ts reads both elements first and then stores them back
crosswise. -/
def swapAt (l : List JSStr) (i j : Nat) : List JSStr :=
  match l[i]?, l[j]? with
  | some a, some b => (l.set i b).set j a
  | _, _ => l

/-- Loop body of shuffleSorter: indices i, i-1, ..., 1 in that order, each
swapped with the chosen index rand i. -/
def shuffleAux (rand : Nat → Nat) : Nat → List JSStr → List JSStr
  | 0, l => l
  | i + 1, l => shuffleAux rand i (swapAt l (i + 1) (rand (i + 1)))

/-- Embeds shuffleSorter of src/sort-lines.ts: rand i models the value
Math.floor(Math.random() * (i + 1)) drawn at loop index i. -/
def shuffleSorter (rand : Nat → Nat) (lines : List JSStr) : List JSStr :=
  shuffleAux rand (lines.length - 1) lines

/-- Embeds timestampCompare of src/sort-lines.ts. -/
def timestampCompare (a b : JSStr) : Int :=
  match jsIndexOf? a ltU, jsIndexOf? b ltU with
  | some i, some j =>
    let fa := jsSubstring a i (i + 30)
    let fb := jsSubstring b j (j + 30)
    if fa = fb then 0 else if jsLt fa fb then -1 else 1
  | _, _ => 0

/-- Embeds dateCompare of src/sort-lines.ts. -/
def dateCompare (a b : JSStr) : Int :=
  match jsIndexOf? a ltU, jsIndexOf? b ltU with
  | some i, some j =>
    let fa := jsSubstring a i (i + 10)
    let fb := jsSubstring b j (j + 10)
    if fa = fb then 0 else if jsLt fa fb then -1 else 1
  | _, _ => 0

/-- Follows the specification wording for the window comparators, for
comparison with the embedding: the window starting at the first less-than
sign is measured in CODE POINTS (w of them), not code units. -/
def specWindowCompare (w : Nat) (a b : JSStr) : Int :=
  match jsIndexOf? a ltU, jsIndexOf? b ltU with
  | some i, some j =>
    let fa := takeCodePoints w (a.drop i)
    let fb := takeCodePoints w (b.drop j)
    if fa = fb then 0 else if jsLt fa fb then -1 else 1
  | _, _ => 0

/-- Error messages surfaced by sortActiveSelection of src/sort-lines.ts. -/
inductive ErrMsg where
  | noEditor
  | emptySelection
  | singleLine
deriving DecidableEq

/-- Outcome of sortActiveSelection: the error messages surfaced, in order,
and the line span handed to sortLines (none when the function returns
undefined, in which case no edit is requested). -/
structure ResolveOutcome where
  messages : List ErrMsg
  span : Option (Nat × Nat)
deriving DecidableEq

/-- Embeds sortActiveSelection of src/sort-lines.ts as a pure decision
function over the editing context it reads: presence of an active editor,
emptiness and single-line-ness of the selection, its start and end lines,
the sortEntireFile configuration flag, and the document line count. -/
def sortActiveSelection (hasEditor isEmpty isSingleLine : Bool)
    (selStart selEnd : Nat) (sortEntireFile : Bool) (lineCount : Nat) :
    ResolveOutcome :=
  if hasEditor = false then ⟨[ErrMsg.noEditor], none⟩
  else
    let msgs := if isEmpty then [ErrMsg.emptySelection] else []
    if isEmpty && sortEntireFile then ⟨msgs, some (0, lineCount - 1)⟩
    else if isSingleLine then ⟨msgs ++ [ErrMsg.singleLine], none⟩
    else ⟨msgs, some (selStart, selEnd)⟩

/-- Array.prototype.join with the newline separator. -/
def joinNL : List JSStr → JSStr
  | [] => []
  | [l] => l
  | l :: rest => l ++ nlU :: joinNL rest

/-- Division of a text into its lines at newline units (the inverse view the
editing surface takes of the replacement text). -/
def splitNL : JSStr → List JSStr
  | [] => [[]]
  | u :: rest =>
    if u = nlU then [] :: splitNL rest
    else
      match splitNL rest with
      | [] => [[u]]
      | h :: t => (u :: h) :: t

/-- The lines the source loop reads: document lines s through e inclusive. -/
def spanLines (doc : List JSStr) (s e : Nat) : List JSStr :=
  (doc.drop s).take (e - s + 1)

/-- Left-to-right fold of the transformer list, as the reduce call in
sortLines performs it. -/
def applySeq (ts : List (List JSStr → List JSStr)) (lines : List JSStr) :
    List JSStr :=
  ts.foldl (fun cur t => t cur) lines

/-- The edit issued by sortLines: replacing the range from (startLine, 0) to
(endLine, end of that line) with a text splices the text's lines over
document lines startLine through endLine. -/
def applyEdit (doc : List JSStr) (s e : Nat) (txt : JSStr) : List JSStr :=
  doc.take s ++ splitNL txt ++ doc.drop (e + 1)

/-- The line sequence sortLines feeds to the edit: the span's lines, the
optional blank filter, then the transformer fold. -/
def pipelineResult (doc : List JSStr) (s e : Nat)
    (ts : List (List JSStr → List JSStr)) (fb : Bool) : List JSStr :=
  applySeq ts (if fb then removeBlanks (spanLines doc s e) else spanLines doc s e)

/-- Embeds sortLines of src/sort-lines.ts over the document model. -/
def sortLines (doc : List JSStr) (s e : Nat)
    (ts : List (List JSStr → List JSStr)) (fb : Bool) : List JSStr :=
  applyEdit doc s e (joinNL (pipelineResult doc s e ts fb))

/-- The sortUnique entry of transformerSequences in src/sort-lines.ts:
the default sorter followed by removeDuplicates. -/
def sortUniqueSeq : List (List JSStr → List JSStr) :=
  [makeSorter defaultCompare, removeDuplicates]

/-- Lexicographic comparison is irreflexive. -/
theorem jsLt_irrefl (a : JSStr) : jsLt a a = false := by
  induction a with
  | nil => rfl
  | cons u rest ih => simp [jsLt, ih]

/-- Lexicographic comparison is asymmetric. -/
theorem jsLt_asymm (a b : JSStr) (h : jsLt a b = true) : jsLt b a = false := by
  induction a generalizing b with
  | nil =>
    cases b with
    | nil => simp [jsLt] at h
    | cons v bs => rfl
  | cons u as ih =>
    cases b with
    | nil => simp [jsLt] at h
    | cons v bs =>
      by_cases huv : u < v
      · have hvu : ¬ v < u := Nat.lt_asymm huv
        simp [jsLt, huv, hvu]
      · by_cases hvu : v < u
        · simp [jsLt, huv, hvu] at h
        · simp [jsLt, huv, hvu] at h ⊢
          exact ih bs h

/-- When two lists already differ within their first n elements, comparing
longer initial segments gives the same verdict, and those segments differ. -/
theorem jsLt_take_congr (n k : Nat) (l m : List Nat) (hnk : n ≤ k)
    (h : l.take n ≠ m.take n) :
    jsLt (l.take k) (m.take k) = jsLt (l.take n) (m.take n) ∧
      l.take k ≠ m.take k := by
  induction n generalizing l m k with
  | zero => simp at h
  | succ n ih =>
    obtain ⟨k2, rfl⟩ : ∃ k2, k = k2 + 1 := ⟨k - 1, by omega⟩
    cases l with
    | nil =>
      cases m with
      | nil => simp at h
      | cons v bs => simp [jsLt]
    | cons u as =>
      cases m with
      | nil => simp [jsLt]
      | cons v bs =>
        by_cases huv : u < v
        · have hne : u ≠ v := Nat.ne_of_lt huv
          simp [jsLt, huv, hne]
        · by_cases hvu : v < u
          · have hne : u ≠ v := Ne.symm (Nat.ne_of_lt hvu)
            simp [jsLt, huv, hvu, hne]
          · have heq : u = v := by omega
            subst heq
            have h2 : as.take n ≠ bs.take n := by
              intro e
              apply h
              simp [e]
            obtain ⟨h3, h4⟩ := ih k2 as bs (by omega) h2
            simp [jsLt, huv, hvu, h3, h4]

/-- The substring of w units starting at i is the w-unit initial segment of
the drop at i. -/
theorem jsSubstring_drop_take (s : JSStr) (i w : Nat) :
    jsSubstring s i (i + w) = (s.drop i).take w := by
  unfold jsSubstring
  rw [List.drop_take]
  congr 1
  omega

/-- Prepending a stored element to a list whose slot was overwritten is a
permutation of prepending the new element to the original list. -/
theorem cons_set_perm (xs : List JSStr) (m : Nat) (a b : JSStr)
    (h : xs[m]? = some b) : List.Perm (b :: xs.set m a) (a :: xs) := by
  induction xs generalizing m with
  | nil => simp at h
  | cons y ys ih =>
    cases m with
    | zero =>
      simp at h
      subst h
      simpa using List.Perm.swap a y ys
    | succ m =>
      simp at h
      have step1 : List.Perm (b :: y :: ys.set m a) (y :: b :: ys.set m a) :=
        List.Perm.swap y b (ys.set m a)
      have step2 : List.Perm (y :: b :: ys.set m a) (y :: a :: ys) :=
        List.Perm.cons y (ih m h)
      have step3 : List.Perm (y :: a :: ys) (a :: y :: ys) :=
        List.Perm.swap a y ys
      simpa using List.Perm.trans (List.Perm.trans step1 step2) step3

/-- Writing each of two stored elements into the other slot permutes the
list. -/
theorem set_set_get_perm (l : List JSStr) (i j : Nat) (a b : JSStr)
    (hi : l[i]? = some a) (hj : l[j]? = some b) :
    List.Perm ((l.set i b).set j a) l := by
  induction l generalizing i j with
  | nil => simp at hi
  | cons x xs ih =>
    cases i with
    | zero =>
      simp at hi
      subst hi
      cases j with
      | zero =>
        simp at hj
        subst hj
        simp
      | succ m =>
        simp at hj
        simpa using cons_set_perm xs m x b hj
    | succ n =>
      simp at hi
      cases j with
      | zero =>
        simp at hj
        subst hj
        simpa using cons_set_perm xs n x a hi
      | succ m =>
        simp at hj
        simpa using List.Perm.cons x (ih n m hi hj)

/-- A swap is a permutation. -/
theorem swapAt_perm (l : List JSStr) (i j : Nat) :
    List.Perm (swapAt l i j) l := by
  unfold swapAt
  split
  next a b hi hj => exact set_set_get_perm l i j a b hi hj
  next => exact List.Perm.refl l

/-- Every pass of the shuffle loop permutes the lines. -/
theorem shuffleAux_perm (rand : Nat → Nat) (i : Nat) (l : List JSStr) :
    List.Perm (shuffleAux rand i l) l := by
  induction i generalizing l with
  | zero => exact List.Perm.refl l
  | succ n ih =>
    exact List.Perm.trans (ih _) (swapAt_perm l (n + 1) (rand (n + 1)))

/-- A newline-free text splits into itself alone. -/
theorem splitNL_no_nl (l : JSStr) (h : ¬ nlU ∈ l) : splitNL l = [l] := by
  induction l with
  | nil => rfl
  | cons u rest ih =>
    have hu : u ≠ nlU := by
      intro e
      exact h (by simp [e])
    have hr : ¬ nlU ∈ rest := by
      intro e
      exact h (by simp [e])
    simp [splitNL, hu, ih hr]

/-- Splitting after a newline-free first line peels that line off. -/
theorem splitNL_append (l xs : JSStr) (h : ¬ nlU ∈ l) :
    splitNL (l ++ nlU :: xs) = l :: splitNL xs := by
  induction l with
  | nil => simp [splitNL]
  | cons u rest ih =>
    have hu : u ≠ nlU := by
      intro e
      exact h (by simp [e])
    have hr : ¬ nlU ∈ rest := by
      intro e
      exact h (by simp [e])
    simp [splitNL, hu, ih hr]

/-- Splitting undoes joining for a nonempty list of newline-free lines. -/
theorem splitNL_joinNL (ls : List JSStr) (hne : ls ≠ [])
    (h : ∀ l ∈ ls, ¬ nlU ∈ l) : splitNL (joinNL ls) = ls := by
  induction ls with
  | nil => simp at hne
  | cons l rest ih =>
    cases rest with
    | nil => exact splitNL_no_nl l (h l (by simp))
    | cons l2 rest2 =>
      have hjoin : joinNL (l :: l2 :: rest2) = l ++ nlU :: joinNL (l2 :: rest2) := rfl
      rw [hjoin, splitNL_append l _ (h l (by simp))]
      rw [ih (by simp) (fun x hx => h x (by simp [hx]))]

/-- The word Apple. -/
def strApple : JSStr := [65, 112, 112, 108, 101]

/-- The word apple. -/
def strapple : JSStr := [97, 112, 112, 108, 101]

/-- The word Banana. -/
def strBanana : JSStr := [66, 97, 110, 97, 110, 97]

/-- The word banana. -/
def strbanana : JSStr := [98, 97, 110, 97, 110, 97]

/-- The word resume, unaccented. -/
def strResume : JSStr := [114, 101, 115, 117, 109, 101]

/-- The same word with both e-acute letters (U+00E9): it differs from
strResume only in diacritics, not in letter case. -/
def strResumeAcc : JSStr := [114, 233, 115, 117, 109, 233]

/-- A line of 31 code units but 30 code points: a less-than sign, one
astral-plane character (the surrogate pair U+D834 U+DD1E), 27 letters a,
then the letter B. Its 30-code-unit window stops just before the final
letter, while its 30-code-point window reaches it. -/
def tsA : JSStr := [60, 55348, 56606] ++ List.replicate 27 97 ++ [66]

/-- Like tsA but ending in the letter C, so the two lines differ only in
their final code unit. -/
def tsB : JSStr := [60, 55348, 56606] ++ List.replicate 27 97 ++ [67]

/-- C1 counterexample: on the line =bar the last equals sign is the first
character, so the substring strictly before it is empty; the claim says the
extractor returns that empty prefix, but getVariableCharacters returns the
whole line because the empty capture is falsy in JavaScript. -/
theorem getVariableCharacters_claim_false :
    lastIdxOf? [61, 98, 97, 114] eqU = some 0 ∧
    getVariableCharacters [61, 98, 97, 114] ≠ List.take 0 [61, 98, 97, 114] ∧
    getVariableCharacters [61, 98, 97, 114] = [61, 98, 97, 114] := by
  decide

/-- C1 (amended): the variable-key extractor returns the substring strictly
before the last equals sign when that substring is nonempty, and the entire
line when there is no equals sign or the prefix before the last one is
empty; in particular extract FOO=bar is FOO, extract A=B=C is A=B, and
extract NOEQUALS is NOEQUALS. -/
theorem getVariableCharacters_spec (line : JSStr) :
    (lastIdxOf? line eqU = none → getVariableCharacters line = line) ∧
    (∀ i, lastIdxOf? line eqU = some i →
      getVariableCharacters line = if i = 0 then line else line.take i) ∧
    getVariableCharacters [70, 79, 79, 61, 98, 97, 114] = [70, 79, 79] ∧
    getVariableCharacters [65, 61, 66, 61, 67] = [65, 61, 66] ∧
    getVariableCharacters [78, 79, 69, 81, 85, 65, 76, 83] =
      [78, 79, 69, 81, 85, 65, 76, 83] := by
  refine ⟨?_, ?_, by decide, by decide, by decide⟩
  · intro h
    unfold getVariableCharacters
    rw [h]
  · intro i h
    have hline : line ≠ [] := by
      intro e
      subst e
      simp [lastIdxOf?] at h
    unfold getVariableCharacters
    rw [h]
    by_cases hi : i = 0
    · subst hi
      simp
    · obtain ⟨x, xs, rfl⟩ : ∃ x xs, line = x :: xs := by
        cases line with
        | nil => exact absurd rfl hline
        | cons x xs => exact ⟨x, xs, rfl⟩
      obtain ⟨i2, rfl⟩ : ∃ i2, i = i2 + 1 := ⟨i - 1, by omega⟩
      simp [List.take]

/-- C1 witness: a line with a nonempty prefix before its only equals sign. -/
theorem getVariableCharacters_spec_witness :
    lastIdxOf? [97, 61] eqU = some 1 ∧
    getVariableCharacters [97, 61] =
      (if 1 = 0 then [97, 61] else List.take 1 [97, 61]) :=
  ⟨by decide, (getVariableCharacters_spec [97, 61]).2.1 1 (by decide)⟩

/-- C2 counterexample: with an empty selection and sortEntireFile enabled,
the resolver does target the whole document, but the EmptySelection error
message fires anyway, because sortActiveSelection surfaces it on every
empty selection before consulting the configuration flag. -/
theorem sortActiveSelection_claim_false :
    (sortActiveSelection true true true 0 0 true 5).span = some (0, 4) ∧
    ErrMsg.emptySelection ∈ (sortActiveSelection true true true 0 0 true 5).messages := by
  decide

/-- C2 (amended): on an empty selection (which is single-line) the
EmptySelection error message is always surfaced; with sortEntireFile
enabled the invocation nevertheless proceeds over the whole document, span
0 to lineCount - 1, and with it disabled the invocation rejects and
requests no write. The resolver yields exactly one of a span or a
rejection. -/
theorem sortActiveSelection_empty_spec (isSingleLine sortEntireFile : Bool)
    (selStart selEnd lineCount : Nat) (hSingle : isSingleLine = true) :
    ErrMsg.emptySelection ∈
      (sortActiveSelection true true isSingleLine selStart selEnd sortEntireFile
        lineCount).messages ∧
    (sortEntireFile = true →
      (sortActiveSelection true true isSingleLine selStart selEnd sortEntireFile
        lineCount).span = some (0, lineCount - 1)) ∧
    (sortEntireFile = false →
      (sortActiveSelection true true isSingleLine selStart selEnd sortEntireFile
        lineCount).span = none) := by
  subst hSingle
  cases sortEntireFile with
  | false => simp [sortActiveSelection]
  | true => simp [sortActiveSelection]

/-- C2 witness: empty selection with the whole-document flag disabled. -/
theorem sortActiveSelection_empty_spec_witness :
    ErrMsg.emptySelection ∈
      (sortActiveSelection true true true 2 3 false 7).messages ∧
    (false = true →
      (sortActiveSelection true true true 2 3 false 7).span = some (0, 6)) ∧
    (false = false →
      (sortActiveSelection true true true 2 3 false 7).span = none) :=
  sortActiveSelection_empty_spec true false 2 3 7 rfl

/-- C3 counterexample: the lines resume and the same word with e-acute
differ only in diacritics, yet the comparator declares them EQUAL: base
sensitivity ignores diacritics as well as case. -/
theorem caseInsensitiveCompare_claim_false :
    caseInsensitiveCompare strResume strResumeAcc = 0 ∧
    strResume ≠ strResumeAcc := by
  decide

/-- C3 (amended): the case-insensitive comparator applies base-letter
sensitivity: it declares two lines EQUAL exactly when their base-folded
forms coincide, so differences of letter case AND of diacritics are both
ignored; Apple and apple compare EQUAL, resume and its accented form
compare EQUAL, and Apple versus Banana compares as apple versus banana. -/
theorem caseInsensitiveCompare_spec (a b : JSStr) :
    (caseInsensitiveCompare a b = 0 ↔ baseFold a = baseFold b) ∧
    caseInsensitiveCompare strApple strapple = 0 ∧
    caseInsensitiveCompare strResume strResumeAcc = 0 ∧
    caseInsensitiveCompare strApple strBanana =
      caseInsensitiveCompare strapple strbanana := by
  refine ⟨?_, by decide, by decide, by decide⟩
  unfold caseInsensitiveCompare
  by_cases h : baseFold a = baseFold b
  · simp [h]
  · simp only [h, if_false, iff_false]
    split
    · omega
    · omega

/-- C4 counterexample: tsA and tsB hold an astral-plane character (two code
units, one code point) inside the window, so their 30-code-unit windows
coincide and timestampCompare returns EQUAL, while the 30-code-point
windows the claim prescribes reach the differing final letter and order
the lines strictly (specWindowCompare follows the claim wording). -/
theorem timestampCompare_claim_false :
    timestampCompare tsA tsB = 0 ∧ specWindowCompare 30 tsA tsB = -1 := by
  decide

/-- C4 (amended): both comparators return EQUAL whenever either operand has
no less-than sign; otherwise each compares lexicographically the window of
UTF-16 CODE UNITS (30 for the timestamp comparator, 10 for the date
comparator) starting at each line's first less-than sign, truncated if the
line is shorter. -/
theorem timestampCompare_spec (a b : JSStr) :
    ((jsIndexOf? a ltU = none ∨ jsIndexOf? b ltU = none) →
      timestampCompare a b = 0 ∧ dateCompare a b = 0) ∧
    (∀ i j, jsIndexOf? a ltU = some i → jsIndexOf? b ltU = some j →
      timestampCompare a b =
        (if (a.drop i).take 30 = (b.drop j).take 30 then 0
         else if jsLt ((a.drop i).take 30) ((b.drop j).take 30) then -1 else 1) ∧
      dateCompare a b =
        (if (a.drop i).take 10 = (b.drop j).take 10 then 0
         else if jsLt ((a.drop i).take 10) ((b.drop j).take 10) then -1 else 1)) := by
  constructor
  · intro h
    rcases h with h | h
    · constructor
      · simp [timestampCompare, h]
      · simp [dateCompare, h]
    · rcases ha : jsIndexOf? a ltU with _ | i
      · constructor
        · simp [timestampCompare, ha]
        · simp [dateCompare, ha]
      · constructor
        · simp [timestampCompare, ha, h]
        · simp [dateCompare, ha, h]
  · intro i j hi hj
    constructor
    · simp [timestampCompare, hi, hj, jsSubstring_drop_take]
    · simp [dateCompare, hi, hj, jsSubstring_drop_take]

/-- C4 witness: two lines each starting with a less-than sign. -/
theorem timestampCompare_spec_witness :
    timestampCompare [60, 97] [60, 98] =
      (if (List.drop 0 [60, 97]).take 30 = (List.drop 0 [60, 98]).take 30 then 0
       else if jsLt ((List.drop 0 [60, 97]).take 30)
          ((List.drop 0 [60, 98]).take 30) then -1 else 1) ∧
    dateCompare [60, 97] [60, 98] =
      (if (List.drop 0 [60, 97]).take 10 = (List.drop 0 [60, 98]).take 10 then 0
       else if jsLt ((List.drop 0 [60, 97]).take 10)
          ((List.drop 0 [60, 98]).take 10) then -1 else 1) :=
  (timestampCompare_spec [60, 97] [60, 98]).2 0 0 (by decide) (by decide)

/-- C5: the descending comparator returns EQUAL exactly on identical lines,
equals the negated default ascending comparison everywhere, and for
distinct lines inverts the ascending code-unit order: a smaller line yields
GREATER (1) and a larger line yields LESS (-1). -/
theorem reverseCompare_spec (a b : JSStr) :
    (reverseCompare a b = 0 ↔ a = b) ∧
    (defaultCompare a b = 0 ↔ a = b) ∧
    reverseCompare a b = -(defaultCompare a b) ∧
    (jsLt a b = true → reverseCompare a b = 1) ∧
    (jsLt b a = true → reverseCompare a b = -1) := by
  unfold reverseCompare defaultCompare
  by_cases hab : a = b
  · subst hab
    simp [jsLt_irrefl]
  · by_cases hlt : jsLt a b = true
    · simp [hab, hlt, jsLt_asymm a b hlt]
    · simp [hab, hlt]

/-- C5 witness: two distinct one-letter lines in ascending order. -/
theorem reverseCompare_spec_witness :
    jsLt [97] [98] = true ∧ reverseCompare [97] [98] = 1 :=
  ⟨by decide, (reverseCompare_spec [97] [98]).2.2.2.1 (by decide)⟩

/-- C6: the length comparators measure lines in Unicode code points:
EQUAL exactly when the code-point counts agree, descending is the negated
ascending result, a base letter with a combining mark counts as 2, and an
astral-plane character counts as 1 code point though it is 2 code units. -/
theorem lineLengthCompare_spec (a b : JSStr) :
    (lineLengthCompare a b = 0 ↔ codePointLength a = codePointLength b) ∧
    lineLengthReverseCompare a b = -(lineLengthCompare a b) ∧
    codePointLength [101, 769] = 2 ∧
    codePointLength [55348, 56606] = 1 ∧
    List.length [55348, 56606] = 2 := by
  refine ⟨?_, ?_, by decide, by decide, by decide⟩
  · unfold lineLengthCompare
    by_cases h : codePointLength a = codePointLength b
    · simp [h]
    · simp only [h, if_false, iff_false]
      split
      · omega
      · omega
  · unfold lineLengthReverseCompare
    generalize lineLengthCompare a b = c
    omega

/-- C7: the shuffle, for every choice function whose pick at index i lies
in the interval 0 to i, permutes the input lines: the result is a
permutation of the input, the multisets coincide, and the length is
preserved. -/
theorem shuffleSorter_perm (rand : Nat → Nat) (lines : List JSStr)
    (_hrand : ∀ i, rand i ≤ i) :
    List.Perm (shuffleSorter rand lines) lines ∧
    (shuffleSorter rand lines : Multiset JSStr) = (lines : Multiset JSStr) ∧
    (shuffleSorter rand lines).length = lines.length := by
  have hp : List.Perm (shuffleSorter rand lines) lines :=
    shuffleAux_perm rand (lines.length - 1) lines
  exact ⟨hp, Multiset.coe_eq_coe.mpr hp, hp.length_eq⟩

/-- C7 witness: three lines shuffled with the pick-zero choice function. -/
theorem shuffleSorter_perm_witness :
    List.Perm (shuffleSorter (fun _ => 0) [[97], [98], [99]]) [[97], [98], [99]] ∧
    (shuffleSorter (fun _ => 0) [[97], [98], [99]] : Multiset JSStr) =
      ([[97], [98], [99]] : Multiset JSStr) ∧
    (shuffleSorter (fun _ => 0) [[97], [98], [99]]).length =
      ([[97], [98], [99]] : List JSStr).length :=
  shuffleSorter_perm (fun _ => 0) [[97], [98], [99]] (fun i => Nat.zero_le i)

/-- C8: the ascending-unique policy is the comparator step followed by the
deduplication step, in that order, and on the lines b, a, c, a it yields
a, b, c. -/
theorem sortUnique_spec :
    applySeq sortUniqueSeq [[98], [97], [99], [97]] = [[97], [98], [99]] ∧
    ∀ lines, applySeq sortUniqueSeq lines =
      removeDuplicates (makeSorter defaultCompare lines) :=
  ⟨by decide, fun _ => rfl⟩

/-- C9: whenever the date comparator is strict (non-EQUAL), the timestamp
comparator agrees with it, because the 10-unit date window is an initial
segment of the 30-unit timestamp window taken from the same position. -/
theorem dateCompare_agrees_timestampCompare (a b : JSStr)
    (h : dateCompare a b ≠ 0) : timestampCompare a b = dateCompare a b := by
  rcases ha : jsIndexOf? a ltU with _ | i
  · exact absurd (by simp [dateCompare, ha]) h
  rcases hb : jsIndexOf? b ltU with _ | j
  · exact absurd (by simp [dateCompare, ha, hb]) h
  have hd : dateCompare a b =
      (if (a.drop i).take 10 = (b.drop j).take 10 then 0
       else if jsLt ((a.drop i).take 10) ((b.drop j).take 10) then -1 else 1) := by
    simp [dateCompare, ha, hb, jsSubstring_drop_take]
  have ht : timestampCompare a b =
      (if (a.drop i).take 30 = (b.drop j).take 30 then 0
       else if jsLt ((a.drop i).take 30) ((b.drop j).take 30) then -1 else 1) := by
    simp [timestampCompare, ha, hb, jsSubstring_drop_take]
  have hne : (a.drop i).take 10 ≠ (b.drop j).take 10 := by
    intro e
    apply h
    rw [hd, if_pos e]
  obtain ⟨hjl, hne30⟩ :=
    jsLt_take_congr 10 30 (a.drop i) (b.drop j) (by omega) hne
  rw [hd, ht, if_neg hne, if_neg hne30, hjl]

/-- C9 witness: two lines whose date windows already differ. -/
theorem dateCompare_agrees_timestampCompare_witness :
    dateCompare [60, 97] [60, 98] ≠ 0 ∧
    timestampCompare [60, 97] [60, 98] = dateCompare [60, 97] [60, 98] :=
  ⟨by decide, dateCompare_agrees_timestampCompare [60, 97] [60, 98] (by decide)⟩

/-- C10: a write over a resolved span replaces exactly document lines
startLine through endLine with the transformed lines (joined by newline and
split back by the editing surface); every line before startLine keeps its
index and content, and every line after endLine survives with its content,
shifted to sit right after the transformed block. -/
theorem sortLines_frame (doc : List JSStr) (s e : Nat)
    (ts : List (List JSStr → List JSStr)) (fb : Bool)
    (hne : pipelineResult doc s e ts fb ≠ [])
    (hnl : ∀ l ∈ pipelineResult doc s e ts fb, ¬ nlU ∈ l)
    (hs : s ≤ doc.length) :
    sortLines doc s e ts fb =
      doc.take s ++ pipelineResult doc s e ts fb ++ doc.drop (e + 1) ∧
    (∀ k, k < s → (sortLines doc s e ts fb)[k]? = doc[k]?) ∧
    (∀ k, (sortLines doc s e ts fb)[s + (pipelineResult doc s e ts fb).length + k]? =
      doc[e + 1 + k]?) := by
  have hA : (doc.take s).length = s := by
    rw [List.length_take]
    omega
  have h1 : sortLines doc s e ts fb =
      doc.take s ++ pipelineResult doc s e ts fb ++ doc.drop (e + 1) := by
    unfold sortLines applyEdit
    rw [splitNL_joinNL _ hne hnl]
  refine ⟨h1, ?_, ?_⟩
  · intro k hk
    rw [h1]
    rw [List.getElem?_append_left (by rw [List.length_append, hA]; omega)]
    rw [List.getElem?_append_left (by omega : k < (doc.take s).length)]
    rw [List.getElem?_take]
    simp [hk]
  · intro k
    rw [h1]
    rw [List.getElem?_append_right (by rw [List.length_append, hA]; omega)]
    rw [List.getElem?_drop]
    congr 1
    rw [List.length_append, hA]
    omega

/-- A four-line document used to witness the frame theorem. -/
def docW : List JSStr := [[120], [98], [97], [121]]

/-- The ascending policy, used to witness the frame theorem. -/
def tsW : List (List JSStr → List JSStr) := [makeSorter defaultCompare]

/-- C10 witness: sorting lines 1 to 2 of the four-line document keeps the
first and last lines in place around the transformed block. -/
theorem sortLines_frame_witness :
    sortLines docW 1 2 tsW false =
      docW.take 1 ++ pipelineResult docW 1 2 tsW false ++ docW.drop 3 :=
  (sortLines_frame docW 1 2 tsW false (by decide) (by decide) (by decide)).1
